import Mathlib

/-!
Shallow embedding of the Home Assistant registry cleanup tool
(src/ha-cleanup.py) and proofs about its behaviour.

Python dictionaries loaded from the JSON registry files are modeled by
structures whose optional fields are `Option String`: `none` stands for a
field that is absent or holds a JSON null (Python `dict.get` returns
`None` in both cases) and `some s` stands for a present string value.
Python truthiness of such a field (`None` and the empty string are falsy)
is modeled explicitly wherever the source relies on it.
-/

/-- One record of the entity registry (`data.entities`).  The key
`entity_id` is modeled as a plain string: every registry record carries
it and the tool reads it with a default of the empty string. -/
structure Entity where
  entity_id : String
  platform : Option String := none
  device_id : Option String := none
  config_entry_id : Option String := none
  unique_id : Option String := none
  original_name : Option String := none
  disabled_by : Option String := none
deriving DecidableEq, Inhabited, Repr

/-- Classification of one registry entity, mirroring the loop body of
`find_orphaned_entities` in the source.  `devices` holds the device
registry ids, `config_entries` the config entry ids, and the three id
lists are the Definition Index results for automations, scripts and
scenes.  The sequence of Python assignments to `is_orphan` is modeled by
`afterDevice` (after the device check), `afterConfig` (after the config
entry check) and the final platform-specific override. -/
def is_orphan_entity (devices config_entries automation_ids script_ids scene_ids : List String)
    (e : Entity) : Bool :=
  let platform := e.platform.getD ""
  let afterDevice : Bool :=
    match e.device_id with
    | some d => if d == "" then false else !(devices.contains d)
    | none => false
  let afterConfig : Bool :=
    afterDevice ||
      (match e.config_entry_id with
       | some c => if c == "" then false else !(config_entries.contains c)
       | none => false)
  if platform == "automation" then
    match e.unique_id with
    | some u => if u == "" then false else !(automation_ids.contains u)
    | none => false
  else if platform == "script" then
    match e.unique_id with
    | some u => if u == "" then false else !(script_ids.contains u)
    | none => false
  else if platform == "scene" then
    match e.unique_id with
    | some u => if u == "" then false else !(scene_ids.contains u)
    | none => false
  else
    afterConfig

/-- Pure core of `find_orphaned_entities`: the per-entity loop that
collects `(platform, entity_id, original_name)` triples for every entity
classified as orphaned. -/
def find_orphaned_entities (entities : List Entity)
    (devices config_entries automation_ids script_ids scene_ids : List String) :
    List (String × String × String) :=
  entities.filterMap fun e =>
    if is_orphan_entity devices config_entries automation_ids script_ids scene_ids e then
      some (e.platform.getD "", e.entity_id, e.original_name.getD "")
    else none

/-- Tests whether a digit run is a single character between 2 and 9: the
first alternative of the regex `DUPLICATE_SUFFIX_PATTERN`, which is
`underscore, then a single digit 2-9 or at least two digits, at the end
of the string`. -/
def single_high_digit : List Char → Bool
  | [c] => '2' ≤ c && c ≤ '9'
  | _ => false

/-- Splits a reversed character list into its leading run of ASCII digits
and the remainder (the reversed view of the maximal trailing digit run of
the original string). -/
def rev_digit_split : List Char → List Char × List Char
  | [] => ([], [])
  | c :: t =>
    if c.isDigit then
      let p := rev_digit_split t
      (c :: p.1, p.2)
    else ([], c :: t)

/-- Inner step of the suffix pattern semantics, taking the output of
`rev_digit_split` on the reversed id. -/
def suffix_split_core (p : List Char × List Char) : Option (String × String) :=
  match p.2 with
  | c :: restR =>
    if c = '_' then
      if 2 ≤ p.1.length ∨ single_high_digit p.1 = true then
        some (String.mk restR.reverse, String.mk p.1.reverse)
      else none
    else none
  | [] => none

/-- Semantics of `DUPLICATE_SUFFIX_PATTERN.search` on an entity id: the
id ends in an underscore followed by a digit run that is either a single
digit 2-9 or at least two digits.  Returns the base id (the suffix
stripped, the `new_id` of the source) together with the digit run. -/
def suffix_split (id : String) : Option (String × String) :=
  suffix_split_core (rev_digit_split id.toList.reverse)

/-- Per-entity body of the `find_suffix_entities` loop: a candidate
triple `(old_id, new_id, platform)` when the id matches the duplicate
suffix pattern and the base id is not among the registry ids. -/
def suffix_candidate (all_entity_ids : List String) (e : Entity) :
    Option (String × String × String) :=
  match suffix_split e.entity_id with
  | none => none
  | some (base, _) =>
    if base ∈ all_entity_ids then none
    else some (e.entity_id, base, e.platform.getD "")

/-- Embedding of `find_suffix_entities`: scans the entity list, matching
each id against the duplicate suffix pattern and keeping only candidates
whose base id is absent from the set of all entity ids. -/
def find_suffix_entities (entities : List Entity) : List (String × String × String) :=
  entities.filterMap (suffix_candidate (entities.map fun e => e.entity_id))

/-- Predicate written from the words of claim C8: the entity id carries a
trailing numeric disambiguation suffix (an underscore followed by a
nonempty digit run at the very end) whose numeric value is 2 or more. -/
def has_suffix_value_ge2 (id : String) : Bool :=
  match rev_digit_split id.toList.reverse with
  | (ds, '_' :: _) =>
    if ds.isEmpty then false
    else decide (2 ≤ (ds.reverse.foldl (fun a c => 10 * a + (c.toNat - Char.toNat '0')) 0))
  | _ => false

/-- Whitespace characters recognized by Python str.strip and int on
ASCII input. -/
def is_py_space (c : Char) : Bool :=
  c == ' ' || c == '\t' || c == '\n' || c == '\r' || c == '\x0b' || c == '\x0c'

/-- Python str.strip on a character list: surrounding whitespace removed
from both ends. -/
def strip_ws (l : List Char) : List Char :=
  ((l.dropWhile is_py_space).reverse.dropWhile is_py_space).reverse

/-- Python str.lower on one ASCII character. -/
def py_lower (c : Char) : Char := c.toLower

/-- Numeric value of a digit string. -/
def digits_val (l : List Char) : Nat :=
  l.foldl (fun a c => 10 * a + (c.toNat - Char.toNat '0')) 0

/-- Acceptor for the digit part of a Python integer string with PEP 515
underscore grouping: a nonempty digit sequence in which every underscore
stands strictly between two digits (so no leading, trailing or doubled
underscores). -/
def py_digit_group : List Char → Bool
  | [] => false
  | [c] => c.isDigit
  | c :: d :: rest =>
    c.isDigit && (if d = '_' then py_digit_group rest else py_digit_group (d :: rest))

/-- Value of the digit part of a Python integer string: a nonempty digit
sequence with PEP 515 underscore grouping, its value read off the digits
with the underscores removed; `none` otherwise. -/
def py_digits (l : List Char) : Option Int :=
  if py_digit_group l then some (digits_val (l.filter (fun c => c != '_')) : Int) else none

/-- Python int() on a string of ASCII characters: surrounding whitespace
is ignored, one optional sign is allowed, and the rest must be a nonempty
digit sequence with PEP 515 underscore grouping.  (CPython additionally
accepts non-ASCII decimal digits; the grammar-agreement statement proved
about the parser is restricted to ASCII input.) -/
def py_int (l0 : List Char) : Option Int :=
  match strip_ws l0 with
  | [] => none
  | c :: r =>
    if c = '+' then py_digits r
    else if c = '-' then (py_digits r).map (fun n => -n)
    else py_digits (c :: r)

/-- Python str.split on a single separator character: always yields one
more part than there are separators, so the empty input yields one empty
part. -/
def py_split (sep : Char) : List Char → List (List Char)
  | [] => [[]]
  | c :: rest =>
    match py_split sep rest with
    | [] => [[]]
    | p :: ps => if c = sep then [] :: p :: ps else (c :: p) :: ps

/-- Python str.split with maxsplit 1, for an input containing the
separator: the part before the first separator and everything after. -/
def split_once (sep : Char) : List Char → List Char × List Char
  | [] => ([], [])
  | c :: rest =>
    if c = sep then ([], rest)
    else
      let p := split_once sep rest
      (c :: p.1, p.2)

/-- Loop body of `parse_selection`: one comma-separated token is either
skipped (when empty), treated as a range when it contains a hyphen (both
halves parsed by int, the inclusive range added unchecked), or treated as
a single number added only when within 1..max_num. -/
def parse_token (max_num : Nat) (acc : Finset Int) (part : List Char) : Finset Int :=
  if part = [] then acc
  else if '-' ∈ part then
    let p := split_once '-' part
    match py_int p.1, py_int p.2 with
    | some st, some en => acc ∪ Finset.Icc st en
    | _, _ => acc
  else
    match py_int part with
    | some num => if 1 ≤ num ∧ num ≤ (max_num : Int) then acc ∪ {num} else acc
    | none => acc

/-- Final set comprehension of `parse_selection`: keep only indices
within 1..max_num (and read the surviving integers back as naturals). -/
def finalize_indices (max_num : Nat) (indices : Finset Int) : Finset Nat :=
  (indices.filter (fun i => 1 ≤ i ∧ i ≤ (max_num : Int))).image Int.toNat

/-- Dispatch of `parse_selection` on the stripped, lowered input: the
special literals, the `all` shortcut, and otherwise the token loop
followed by the final range filter. -/
def parse_selection_core (max_num : Nat) (s : List Char) : Finset Nat :=
  if s = [] ∨ s = "none".toList ∨ s = "n".toList ∨ s = "q".toList then ∅
  else if s = "all".toList then Finset.Icc 1 max_num
  else
    finalize_indices max_num
      ((py_split ',' (s.filter (fun c => c != ' '))).foldl (parse_token max_num) ∅)

/-- Embedding of `parse_selection`: strip and lowercase the input, then
dispatch. -/
def parse_selection (selection : String) (max_num : Nat) : Finset Nat :=
  parse_selection_core max_num ((strip_ws selection.toList).map py_lower)

/-- Modelled from the words of claim C7 (the grammar in the
specification): a token is a bare positive integer, kept when within
1..max_num, or an inclusive start-end range of two bare integers with
out-of-range values dropped; all other tokens are dropped. -/
def grammar_token (max_num : Nat) (part : List Char) : Finset Nat :=
  if part ≠ [] ∧ part.all Char.isDigit then
    if 1 ≤ digits_val part ∧ digits_val part ≤ max_num then {digits_val part} else ∅
  else if '-' ∈ part then
    let p := split_once '-' part
    if p.1 ≠ [] ∧ p.1.all Char.isDigit ∧ p.2 ≠ [] ∧ p.2.all Char.isDigit then
      (Finset.Icc (digits_val p.1) (digits_val p.2)).filter
        (fun i => 1 ≤ i ∧ i ≤ max_num)
    else ∅
  else ∅

/-- Modelled from the words of claim C7: grammar-level dispatch on the
stripped, lowered input, with whitespace ignored inside the token list. -/
def grammar_parse_core (max_num : Nat) (s : List Char) : Finset Nat :=
  if s = [] ∨ s = "none".toList ∨ s = "n".toList ∨ s = "q".toList then ∅
  else if s = "all".toList then Finset.Icc 1 max_num
  else
    (py_split ',' (s.filter (fun c => !(is_py_space c)))).foldl
      (fun acc part => acc ∪ grammar_token max_num part) ∅

/-- Modelled from the words of claim C7: the index set given by the
selection grammar. -/
def selection_grammar_parse (selection : String) (max_num : Nat) : Finset Nat :=
  grammar_parse_core max_num ((strip_ws selection.toList).map py_lower)

/-- Characters on which the source parser provably follows the selection
grammar (and on which the embedding of Python int, lower and strip is
exact): ASCII, no plus sign, no underscore (Python int accepts
sign-prefixed and underscore-grouped numerals that the grammar rejects),
no uppercase letter, and no whitespace other than the plain space (the
source removes only literal spaces inside the token list). -/
def good_sel_char (c : Char) : Bool :=
  decide (c.toNat < 128 ∧ c ≠ '+' ∧ c ≠ '_' ∧ ¬(65 ≤ c.toNat ∧ c.toNat ≤ 90) ∧
    (c = ' ' ∨ is_py_space c = false))

/-- One registry JSON document, as read by the tool.  `entities?` models
the presence of the `data.entities` key (needed by the full restore
validation); the tool reads it with a default of the empty list
elsewhere.  `devices` holds the device ids of `data.devices`, `entries`
the entry ids of `data.entries`; the deleted collections back the
deleted-items cleanup. -/
structure Doc where
  entities? : Option (List Entity) := none
  devices : List String := []
  entries : List String := []
  deleted_entities : List Entity := []
  deleted_devices : List Entity := []
deriving DecidableEq, Inhabited

/-- Structural difference between a snapshot and the live registry. -/
structure EntityDiff where
  deleted : List Entity
  new : List Entity
  modified : List (Entity × Entity)
deriving DecidableEq

/-- Value of a Python dict comprehension keyed by entity id at one key:
the last entity of the list bearing that id (later duplicates override
earlier ones). -/
def lookup_last (l : List Entity) (id : String) : Option Entity :=
  (l.filter (fun e => e.entity_id == id)).getLast?

/-- Key list of a Python dict built from the entity list: first
occurrence order, duplicates collapsed. -/
def dedup_first : List String → List String
  | [] => []
  | x :: xs => x :: (dedup_first xs).filter (fun y => y != x)

/-- The fixed comparison field set of compare_registries, with Python
get semantics (absent and null both read as None). -/
def entity_fields_differ (x y : Entity) : Bool :=
  decide (x.platform ≠ y.platform ∨ x.device_id ≠ y.device_id ∨
    x.config_entry_id ≠ y.config_entry_id ∨ x.original_name ≠ y.original_name ∨
    x.disabled_by ≠ y.disabled_by)

/-- Embedding of `compare_registries`.  Python iterates the id sets in
unspecified set order; the embedding fixes first-occurrence order, which
is immaterial to the membership facts proved below. -/
def compare_registries (backup_data current_data : Doc) : EntityDiff :=
  let backup_list := backup_data.entities?.getD []
  let current_list := current_data.entities?.getD []
  let backup_ids := dedup_first (backup_list.map (fun e => e.entity_id))
  let current_ids := dedup_first (current_list.map (fun e => e.entity_id))
  { deleted := (backup_ids.filter (fun i => decide (i ∉ current_ids))).filterMap
      (lookup_last backup_list)
    new := (current_ids.filter (fun i => decide (i ∉ backup_ids))).filterMap
      (lookup_last current_list)
    modified := (backup_ids.filter (fun i => decide (i ∈ current_ids))).filterMap
      (fun i =>
        match lookup_last backup_list i, lookup_last current_list i with
        | some x, some y => if entity_fields_differ x y then some (x, y) else none
        | _, _ => none) }

/-- Content of one file in the modeled filesystem: a parsed registry
document, or text that does not parse as JSON. -/
inductive FileData
  | json (d : Doc)
  | invalid
deriving DecidableEq

/-- The filesystem: path to content, `none` for a missing file. -/
def Fs : Type := String → Option FileData

/-- Point update of the filesystem. -/
def fs_set (fs : Fs) (p : String) (v : Option FileData) : Fs :=
  fun q => if q = p then v else fs q

/-- Errors of load_json: FileNotFoundError and the ValueError raised on
invalid JSON. -/
inductive LoadErr
  | notFound
  | badJson
deriving DecidableEq

/-- Embedding of `load_json`.  The mtime-keyed read cache is transparent
here: it is invalidated on every save and the tool is single threaded, so
a load always returns the current file content. -/
def load_json (fs : Fs) (path : String) : Except LoadErr Doc :=
  match fs path with
  | none => .error .notFound
  | some .invalid => .error .badJson
  | some (.json d) => .ok d

/-- Name of the temporary sibling file used by save_json
(`path.tmp.pid`). -/
def temp_name (path : String) (pid : Nat) : String :=
  path ++ ".tmp." ++ toString pid

/-- Failure points of the save path that the error handler of
`save_json` must clean up after: a failure while writing the temporary
file (which leaves partial content there), or a failure of the final
rename (which, being atomic, leaves the target untouched). -/
inductive SaveStep
  | writeTemp
  | rename
deriving DecidableEq

/-- Result of a save: the filesystem afterwards and whether the save
completed (false means the ValueError reraise). -/
structure SaveResult where
  fs : Fs
  ok : Bool

/-- Embedding of `save_json`: serialize the document into a temporary
sibling file (under an exclusive advisory lock, flushed and fsynced),
then atomically rename it over the target and invalidate the cache.
`failAt` injects a failure at the given step; the handler removes the
temporary file when it exists and reraises. -/
def save_json (fs : Fs) (path : String) (data : Doc) (failAt : Option SaveStep)
    (pid : Nat) : SaveResult :=
  let tmp := temp_name path pid
  match failAt with
  | some .writeTemp =>
    let fs1 := fs_set fs tmp (some .invalid)
    { fs := if (fs1 tmp).isSome then fs_set fs1 tmp none else fs1, ok := false }
  | some .rename =>
    let fs1 := fs_set fs tmp (some (.json data))
    { fs := if (fs1 tmp).isSome then fs_set fs1 tmp none else fs1, ok := false }
  | none =>
    let fs1 := fs_set fs tmp (some (.json data))
    { fs := fs_set (fs_set fs1 path (some (.json data))) tmp none, ok := true }

/-- Name of the timestamped snapshot of a file
(`path.backup.YYYYMMDD_HHMMSS`). -/
def backup_name (path ts : String) : String :=
  path ++ ".backup." ++ ts

/-- Embedding of `backup_file`: raises FileNotFoundError (`none`) when
the source is absent, otherwise copies it to the timestamped sibling. -/
def backup_file (fs : Fs) (path ts : String) : Option Fs :=
  match fs path with
  | none => none
  | some v => some (fs_set fs (backup_name path ts) (some v))

/-- Abstract paths of the three registry files. -/
def ENTITY_REGISTRY : String := "core.entity_registry"

/-- Path of the device registry file. -/
def DEVICE_REGISTRY : String := "core.device_registry"

/-- Path of the config entries file. -/
def CONFIG_ENTRIES : String := "core.config_entries"

/-- Observable registry events of one operation: a snapshot taken via
backup_file of a path, and a completed write of a path (a save_json
rename or a copy over the live registry). -/
inductive Event
  | snapshot (p : String)
  | write (p : String)
deriving DecidableEq

/-- Checks that every write in the trace is preceded by a snapshot of the
same path, accumulating the paths snapshotted so far. -/
def covered_by (seen : List String) : List Event → Bool
  | [] => true
  | .snapshot p :: rest => covered_by (p :: seen) rest
  | .write p :: rest => seen.contains p && covered_by seen rest

/-- The backup-before-write discipline of one operation trace. -/
def safe_trace (t : List Event) : Bool := covered_by [] t

/-- The three Definition Index results consumed by orphan detection. -/
structure DefIdx where
  automation_ids : List String
  script_ids : List String
  scene_ids : List String

/-- File-level `find_orphaned_entities`: missing or unreadable registry
files short-circuit to an empty result. -/
def find_orphaned_entities_fs (fs : Fs) (idx : DefIdx) : List (String × String × String) :=
  if (fs ENTITY_REGISTRY).isNone ∨ (fs DEVICE_REGISTRY).isNone ∨
      (fs CONFIG_ENTRIES).isNone then []
  else
    match load_json fs ENTITY_REGISTRY, load_json fs DEVICE_REGISTRY,
        load_json fs CONFIG_ENTRIES with
    | .ok entity_data, .ok device_data, .ok config_data =>
      find_orphaned_entities (entity_data.entities?.getD []) device_data.devices
        config_data.entries idx.automation_ids idx.script_ids idx.scene_ids
    | _, _, _ => []

/-- Embedding of `cleanup_orphaned_entities`: detect, then (outside dry
run) snapshot the entity registry, reload it, drop the orphaned ids and
save.  The trace records the snapshot and the write; exceptions surface
as `Except.error`. -/
def cleanup_orphaned_entities (fs : Fs) (idx : DefIdx) (dry_run : Bool) (ts : String)
    (sfail : Option SaveStep) (pid : Nat) : List Event × Except Unit (Nat × Fs) :=
  let orphans := find_orphaned_entities_fs fs idx
  if orphans.isEmpty then ([], .ok (0, fs))
  else if dry_run then ([], .ok (orphans.length, fs))
  else
    match backup_file fs ENTITY_REGISTRY ts with
    | none => ([], .error ())
    | some fs1 =>
      match load_json fs1 ENTITY_REGISTRY with
      | .error _ => ([.snapshot ENTITY_REGISTRY], .error ())
      | .ok d =>
        match d.entities? with
        | none => ([.snapshot ENTITY_REGISTRY], .error ())
        | some es =>
          let orphan_eids := orphans.map (fun o => o.2.1)
          let kept := es.filter (fun e => decide (e.entity_id ∉ orphan_eids))
          let r := save_json fs1 ENTITY_REGISTRY { d with entities? := some kept } sfail pid
          if r.ok then
            ([.snapshot ENTITY_REGISTRY, .write ENTITY_REGISTRY],
              .ok (es.length - kept.length, r.fs))
          else ([.snapshot ENTITY_REGISTRY], .error ())

/-- One iteration of the cleanup_deleted_items loop over
`(registry path, deleted collection)`: load errors and missing files are
skipped, a nonempty collection is cleared behind a snapshot. -/
def cleanup_deleted_one (fs : Fs) (path : String) (use_entities : Bool) (dry_run : Bool)
    (ts : String) (sfail : Option SaveStep) (pid : Nat) :
    List Event × Except Unit (Fs × Nat) :=
  if (fs path).isNone then ([], .ok (fs, 0))
  else
    match load_json fs path with
    | .error _ => ([], .ok (fs, 0))
    | .ok d =>
      let n := if use_entities then d.deleted_entities.length else d.deleted_devices.length
      if n = 0 then ([], .ok (fs, 0))
      else if dry_run then ([], .ok (fs, n))
      else
        match backup_file fs path ts with
        | none => ([], .error ())
        | some fs1 =>
          let d2 := if use_entities then { d with deleted_entities := [] }
            else { d with deleted_devices := [] }
          let r := save_json fs1 path d2 sfail pid
          if r.ok then ([.snapshot path, .write path], .ok (r.fs, n))
          else ([.snapshot path], .error ())

/-- Embedding of `cleanup_deleted_items`: the entity registry first, then
the device registry; an exception in either step aborts the whole
function. -/
def cleanup_deleted_items (fs : Fs) (dry_run : Bool) (ts : String)
    (sfail : Option SaveStep) (pid : Nat) : List Event × Except Unit (Fs × Nat) :=
  match cleanup_deleted_one fs ENTITY_REGISTRY true dry_run ts sfail pid with
  | (t1, .error e) => (t1, .error e)
  | (t1, .ok (fs1, n1)) =>
    match cleanup_deleted_one fs1 DEVICE_REGISTRY false dry_run ts sfail pid with
    | (t2, .error e) => (t1 ++ t2, .error e)
    | (t2, .ok (fs2, n2)) => (t1 ++ t2, .ok (fs2, n1 + n2))

/-- File-level `find_suffix_entities`: a missing or unreadable entity
registry yields no candidates. -/
def find_suffix_entities_fs (fs : Fs) : List (String × String × String) :=
  if (fs ENTITY_REGISTRY).isNone then []
  else
    match load_json fs ENTITY_REGISTRY with
    | .error _ => []
    | .ok d => find_suffix_entities (d.entities?.getD [])

/-- Embedding of `fix_entity_suffix`: candidate detection, interactive
selection (`sel_input = none` models EOF or interrupt at the prompt),
confirmation, then snapshot, rename of the selected entity ids (a Python
dict from old to new id, later duplicates overriding) and save. -/
def fix_entity_suffix (fs : Fs) (dry_run : Bool) (sel_input : Option String)
    (confirm : Bool) (ts : String) (sfail : Option SaveStep) (pid : Nat) :
    List Event × Except Unit (Nat × Fs) :=
  let candidates := find_suffix_entities_fs fs
  if candidates.isEmpty then ([], .ok (0, fs))
  else if dry_run then ([], .ok (candidates.length, fs))
  else
    match sel_input with
    | none => ([], .ok (0, fs))
    | some sel =>
      let indices := parse_selection sel candidates.length
      if indices = ∅ then ([], .ok (0, fs))
      else
        let selected_fixes := (indices.sort (· ≤ ·)).map
          (fun i => candidates.getD (i - 1) ("", "", ""))
        if !confirm then ([], .ok (0, fs))
        else
          match backup_file fs ENTITY_REGISTRY ts with
          | none => ([], .error ())
          | some fs1 =>
            match load_json fs1 ENTITY_REGISTRY with
            | .error _ => ([.snapshot ENTITY_REGISTRY], .error ())
            | .ok d =>
              match d.entities? with
              | none => ([.snapshot ENTITY_REGISTRY], .error ())
              | some es =>
                let es2 := es.map (fun e =>
                  match ((selected_fixes.filter (fun t => t.1 == e.entity_id)).getLast?).map
                      (fun t => t.2.1) with
                  | some nid => { e with entity_id := nid }
                  | none => e)
                let r := save_json fs1 ENTITY_REGISTRY { d with entities? := some es2 }
                  sfail pid
                if r.ok then
                  ([.snapshot ENTITY_REGISTRY, .write ENTITY_REGISTRY],
                    .ok (selected_fixes.length, r.fs))
                else ([.snapshot ENTITY_REGISTRY], .error ())

/-- Embedding of `selective_restore_entities`: load the snapshot and the
live registry, diff them, let the operator pick entities from the deleted
bucket, confirm, stop the host (`stop_method` is the method found by
stop_ha, `manual_ok` the manual-stop confirmation), snapshot the live
registry, merge the selected entities that do not collide with a live
entity id, and save.  Returns `(restored, skipped, fs)`. -/
def selective_restore_entities (fs : Fs) (backup_path : String) (dry_run : Bool)
    (sel_input : Option String) (confirm : Bool) (stop_method : Option String)
    (manual_ok : Bool) (ts : String) (sfail : Option SaveStep) (pid : Nat) :
    List Event × Except Unit (Nat × Nat × Fs) :=
  match load_json fs backup_path, load_json fs ENTITY_REGISTRY with
  | .ok backup_data, .ok current_data =>
    let diff := compare_registries backup_data current_data
    if diff.deleted.isEmpty then ([], .ok (0, 0, fs))
    else
      match sel_input with
      | none => ([], .ok (0, 0, fs))
      | some sel =>
        let indices := parse_selection sel diff.deleted.length
        if indices = ∅ then ([], .ok (0, 0, fs))
        else
          let selected_entities := (indices.sort (· ≤ ·)).map
            (fun i => diff.deleted.getD (i - 1) default)
          if dry_run then ([], .ok (selected_entities.length, 0, fs))
          else if !confirm then ([], .ok (0, 0, fs))
          else if stop_method.isNone ∧ ¬manual_ok then ([], .ok (0, 0, fs))
          else
            match backup_file fs ENTITY_REGISTRY ts with
            | none => ([], .error ())
            | some fs1 =>
              match current_data.entities? with
              | none => ([.snapshot ENTITY_REGISTRY], .error ())
              | some ces =>
                let current_entity_ids := ces.map (fun e => e.entity_id)
                let skipped := (selected_entities.filter
                  (fun e => decide (e.entity_id ∈ current_entity_ids))).length
                let to_add := selected_entities.filter
                  (fun e => decide (e.entity_id ∉ current_entity_ids))
                let r := save_json fs1 ENTITY_REGISTRY
                  { current_data with entities? := some (ces ++ to_add) } sfail pid
                if r.ok then
                  ([.snapshot ENTITY_REGISTRY, .write ENTITY_REGISTRY],
                    .ok (to_add.length, skipped, r.fs))
                else ([.snapshot ENTITY_REGISTRY], .error ())
  | _, _ => ([], .ok (0, 0, fs))

/-- Embedding of `full_restore_registry`: load and validate the snapshot
(it must carry data.entities), display the entity count delta (read-only,
not modeled), confirm, stop the host, snapshot the live registry, then
copy the snapshot bytes over it. -/
def full_restore_registry (fs : Fs) (backup_path : String) (dry_run : Bool)
    (confirm : Bool) (stop_method : Option String) (manual_ok : Bool) (ts : String) :
    List Event × Except Unit (Nat × Fs) :=
  match load_json fs backup_path with
  | .error _ => ([], .ok (0, fs))
  | .ok backup_data =>
    match backup_data.entities? with
    | none => ([], .ok (0, fs))
    | some bes =>
      if dry_run then ([], .ok (bes.length, fs))
      else if !confirm then ([], .ok (0, fs))
      else if stop_method.isNone ∧ ¬manual_ok then ([], .ok (0, fs))
      else
        match backup_file fs ENTITY_REGISTRY ts with
        | none => ([], .error ())
        | some fs1 =>
          match fs1 backup_path with
          | none => ([.snapshot ENTITY_REGISTRY], .error ())
          | some v =>
            ([.snapshot ENTITY_REGISTRY, .write ENTITY_REGISTRY],
              .ok (bes.length, fs_set fs1 ENTITY_REGISTRY (some v)))

/-- Registry document used by the concrete round-trip run. -/
def roundtripDoc : Doc := { entities? := some [{ entity_id := "sensor.x" }] }

/-- Initial filesystem of the concrete round-trip run: only the live
entity registry exists. -/
def roundtripFs0 : Fs :=
  fun q => if q = ENTITY_REGISTRY then some (.json roundtripDoc) else none

/-- Snapshot document of the concrete selective restore run. -/
def restoreBackupDoc : Doc :=
  { entities? := some [{ entity_id := "sensor.a" }, { entity_id := "sensor.b" }] }

/-- Live registry document of the concrete selective restore run. -/
def restoreCurrentDoc : Doc := { entities? := some [{ entity_id := "sensor.a" }] }

/-- Filesystem of the concrete selective restore run. -/
def restoreFs : Fs :=
  fun q =>
    if q = "core.entity_registry.backup.20240101_000000" then some (.json restoreBackupDoc)
    else if q = ENTITY_REGISTRY then some (.json restoreCurrentDoc)
    else none

/-- C2: for an automation, script or scene entity carrying a non-empty
unique id, the orphan verdict is exactly "the unique id is absent from
the matching Definition Index result"; the device and config entry
reference signals are fully overridden. -/
theorem C2_definition_index_overrides_references
    (devices config_entries automation_ids script_ids scene_ids : List String)
    (e : Entity) (u : String) (hu : e.unique_id = some u) (hne : u ≠ "") :
    (e.platform.getD "" = "automation" →
      (is_orphan_entity devices config_entries automation_ids script_ids scene_ids e = true ↔
        u ∉ automation_ids)) ∧
    (e.platform.getD "" = "script" →
      (is_orphan_entity devices config_entries automation_ids script_ids scene_ids e = true ↔
        u ∉ script_ids)) ∧
    (e.platform.getD "" = "scene" →
      (is_orphan_entity devices config_entries automation_ids script_ids scene_ids e = true ↔
        u ∉ scene_ids)) := by
  refine ⟨fun hp => ?_, fun hp => ?_, fun hp => ?_⟩ <;>
    simp [is_orphan_entity, hp, hu, hne]

/-- Concrete instance of C2 (the scenario from the specification): the
automation entity `C` with unique id `auto1` is not orphaned when the
Definition Index returns both `auto1` and `auto2`, even though its device
reference dangles, and is orphaned when the index returns only `auto2`. -/
theorem C2_witness :
    is_orphan_entity [] [] ["auto1", "auto2"] [] []
      { entity_id := "automation.c", platform := some "automation",
        unique_id := some "auto1", device_id := some "dangling" } = false ∧
    is_orphan_entity [] [] ["auto2"] [] []
      { entity_id := "automation.c", platform := some "automation",
        unique_id := some "auto1", device_id := some "dangling" } = true := by
  constructor
  · have h := (C2_definition_index_overrides_references [] [] ["auto1", "auto2"] [] []
      { entity_id := "automation.c", platform := some "automation",
        unique_id := some "auto1", device_id := some "dangling" } "auto1" rfl (by decide)).1 rfl
    exact Bool.eq_false_iff.mpr (fun hx => (h.mp hx) (by decide))
  · have h := (C2_definition_index_overrides_references [] [] ["auto2"] [] []
      { entity_id := "automation.c", platform := some "automation",
        unique_id := some "auto1", device_id := some "dangling" } "auto1" rfl (by decide)).1 rfl
    exact h.mpr (by decide)

/-- C3: an automation, script or scene entity lacking a unique id (the
field absent, null, or the empty string) is never classified orphaned,
whatever its other fields hold. -/
theorem C3_no_unique_id_never_orphaned
    (devices config_entries automation_ids script_ids scene_ids : List String)
    (e : Entity)
    (hp : e.platform.getD "" = "automation" ∨ e.platform.getD "" = "script" ∨
      e.platform.getD "" = "scene")
    (hu : e.unique_id = none ∨ e.unique_id = some "") :
    is_orphan_entity devices config_entries automation_ids script_ids scene_ids e = false := by
  rcases hp with hp | hp | hp <;> rcases hu with hu | hu <;>
    simp [is_orphan_entity, hp, hu]

/-- Concrete instance of C3: an automation entity without a unique id and
with a dangling device reference is still not orphaned. -/
theorem C3_witness :
    is_orphan_entity ["d1"] [] [] [] []
      { entity_id := "automation.x", platform := some "automation",
        device_id := some "gone" } = false :=
  C3_no_unique_id_never_orphaned ["d1"] [] [] [] []
    { entity_id := "automation.x", platform := some "automation", device_id := some "gone" }
    (Or.inl rfl) (Or.inl rfl)

/-- C4 fails as stated: an entity whose `device_id` is present and
non-null but is the empty string is falsy in Python, so the source never
treats it as evidence of orphanhood, while the claim (present, non-null,
absent from the device id set) would classify the entity orphaned.  The
entity below carries `device_id = some ""`, the device id set `["d1"]`
does not contain `""`, its platform is not automation, script or scene,
and yet the classification is not orphaned. -/
theorem C4_counterexample :
    ({ entity_id := "sensor.b", platform := some "sensor",
       device_id := some "" } : Entity).device_id = some "" ∧
    "" ∉ ["d1"] ∧
    is_orphan_entity ["d1"] [] [] [] []
      { entity_id := "sensor.b", platform := some "sensor", device_id := some "" } = false := by
  refine ⟨rfl, by decide, by decide⟩

/-- C4 amended: for an entity whose platform is not automation, script or
scene, the verdict is orphaned exactly when a present, non-null and
non-empty device reference points outside the device id set, or a
present, non-null and non-empty config entry reference points outside the
config entry id set.  The second conjunct is the scenario from the
specification: entities `A` (device `d1`, present) and `B` (device `d2`,
absent) yield exactly `[B]`. -/
theorem C4_reference_orphan_iff :
    (∀ (devices config_entries automation_ids script_ids scene_ids : List String) (e : Entity),
      e.platform.getD "" ≠ "automation" → e.platform.getD "" ≠ "script" →
      e.platform.getD "" ≠ "scene" →
      (is_orphan_entity devices config_entries automation_ids script_ids scene_ids e = true ↔
        (∃ d, e.device_id = some d ∧ d ≠ "" ∧ d ∉ devices) ∨
        (∃ c, e.config_entry_id = some c ∧ c ≠ "" ∧ c ∉ config_entries))) ∧
    find_orphaned_entities
      [{ entity_id := "sensor.a", platform := some "sensor", device_id := some "d1" },
       { entity_id := "sensor.b", platform := some "sensor", device_id := some "d2" }]
      ["d1"] [] [] [] [] = [("sensor", "sensor.b", "")] := by
  constructor
  · intro devices config_entries automation_ids script_ids scene_ids e h1 h2 h3
    rcases hd : e.device_id with _ | d <;> rcases hc : e.config_entry_id with _ | c <;>
      simp [is_orphan_entity, h1, h2, h3, hd, hc]
  · decide

/-- Concrete instance of the amended C4, obtained by instantiating the
general statement: a sensor entity with a dangling, non-empty device
reference is orphaned. -/
theorem C4_witness :
    is_orphan_entity ["d1"] [] [] [] []
      { entity_id := "sensor.b", platform := some "sensor", device_id := some "d2" } = true :=
  (C4_reference_orphan_iff.1 ["d1"] [] [] [] []
    { entity_id := "sensor.b", platform := some "sensor", device_id := some "d2" }
    (by decide) (by decide) (by decide)).mpr
    (Or.inl ⟨"d2", rfl, by decide, by decide⟩)

lemma single_high_digit_of_two_le (l : List Char) (h : 2 ≤ l.length) :
    single_high_digit l = false := by
  match l with
  | [] => simp at h
  | [c] => simp at h
  | a :: b :: t => rfl

lemma single_high_digit_reverse (l : List Char) :
    single_high_digit l.reverse = single_high_digit l := by
  match l with
  | [] => rfl
  | [c] => rfl
  | a :: b :: t =>
    rw [single_high_digit_of_two_le _ (by simp), single_high_digit_of_two_le _ (by simp)]

lemma rev_digit_split_append (l : List Char) :
    (rev_digit_split l).1 ++ (rev_digit_split l).2 = l := by
  induction l with
  | nil => rfl
  | cons c t ih =>
    by_cases h : c.isDigit
    · simp [rev_digit_split, h, ih]
    · simp [rev_digit_split, h]

lemma rev_digit_split_digits (l : List Char) :
    ∀ x ∈ (rev_digit_split l).1, x.isDigit = true := by
  induction l with
  | nil => simp [rev_digit_split]
  | cons c t ih =>
    by_cases h : c.isDigit
    · simp only [rev_digit_split, h, if_pos]
      intro x hx
      rcases List.mem_cons.mp hx with hx | hx
      · exact hx ▸ h
      · exact ih x hx
    · simp [rev_digit_split, h]

lemma rev_digit_split_of_all (l1 : List Char) (c : Char) (l2 : List Char)
    (h1 : ∀ x ∈ l1, x.isDigit = true) (hc : c.isDigit = false) :
    rev_digit_split (l1 ++ c :: l2) = (l1, c :: l2) := by
  induction l1 with
  | nil => simp [rev_digit_split, hc]
  | cons a t ih =>
    have ha : a.isDigit = true := h1 a (List.mem_cons_self a t)
    simp [rev_digit_split, ha, ih (fun x hx => h1 x (List.mem_cons_of_mem a hx))]

/-- Characterization of the duplicate suffix pattern match in terms of a
decomposition of the entity id. -/
lemma suffix_split_eq_some (id base run : String) :
    suffix_split id = some (base, run) ↔
    ∃ pre ds, id.toList = pre ++ '_' :: ds ∧ (∀ c ∈ ds, c.isDigit = true) ∧
      (2 ≤ ds.length ∨ single_high_digit ds = true) ∧
      base = String.mk pre ∧ run = String.mk ds := by
  constructor
  · intro h
    unfold suffix_split at h
    rcases hsp : rev_digit_split id.toList.reverse with ⟨ds0, rest⟩
    rw [hsp] at h
    rcases rest with _ | ⟨c, restR⟩
    · simp [suffix_split_core] at h
    · simp only [suffix_split_core] at h
      by_cases hc : c = '_'
      · subst hc
        rw [if_pos rfl] at h
        by_cases hcond : 2 ≤ ds0.length ∨ single_high_digit ds0 = true
        · rw [if_pos hcond] at h
          simp only [Option.some.injEq, Prod.mk.injEq] at h
          refine ⟨restR.reverse, ds0.reverse, ?_, ?_, ?_, h.1.symm, h.2.symm⟩
          · have hsplit := rev_digit_split_append id.toList.reverse
            rw [hsp] at hsplit
            have hid : id.toList = (ds0 ++ '_' :: restR).reverse := by
              rw [hsplit, List.reverse_reverse]
            simpa [List.reverse_append] using hid
          · intro x hx
            have hd := rev_digit_split_digits id.toList.reverse x
            rw [hsp] at hd
            exact hd (List.mem_reverse.mp hx)
          · rcases hcond with hcond | hcond
            · exact Or.inl (by simpa using hcond)
            · exact Or.inr (by rw [single_high_digit_reverse]; exact hcond)
        · rw [if_neg hcond] at h
          exact absurd h (by simp)
      · rw [if_neg hc] at h
        exact absurd h (by simp)
  · rintro ⟨pre, dsx, hdec, hdig, hcond, hb, hr⟩
    have hrev : id.toList.reverse = dsx.reverse ++ '_' :: pre.reverse := by
      rw [hdec]; simp [List.reverse_append]
    have hx : rev_digit_split id.toList.reverse = (dsx.reverse, '_' :: pre.reverse) := by
      rw [hrev]
      exact rev_digit_split_of_all _ _ _ (fun x hx => hdig x (List.mem_reverse.mp hx)) (by decide)
    have hcond2 : 2 ≤ dsx.reverse.length ∨ single_high_digit dsx.reverse = true := by
      rcases hcond with hcond | hcond
      · exact Or.inl (by simpa using hcond)
      · exact Or.inr (by rw [single_high_digit_reverse]; exact hcond)
    unfold suffix_split
    rw [hx]
    simp [suffix_split_core, hb, hr, hcond2]
    intro hlen
    rw [single_high_digit_reverse]
    rcases hcond with hcond | hcond
    · omega
    · exact hcond

lemma suffix_candidate_eq_some (all_entity_ids : List String) (e : Entity)
    (t : String × String × String) :
    suffix_candidate all_entity_ids e = some t ↔
    ∃ base run, suffix_split e.entity_id = some (base, run) ∧
      base ∉ all_entity_ids ∧ t = (e.entity_id, base, e.platform.getD "") := by
  unfold suffix_candidate
  rcases hsp : suffix_split e.entity_id with _ | ⟨base, run⟩
  · simp
  · by_cases hc : base ∈ all_entity_ids
    · simp [hc]
    · simp [hc, eq_comm]

lemma dropWhile_no_ws (l : List Char) (h : ∀ c ∈ l, is_py_space c = false) :
    l.dropWhile is_py_space = l := by
  cases l with
  | nil => rfl
  | cons a t =>
    exact List.dropWhile_cons_of_neg (by simp [h a (List.mem_cons_self a t)])

lemma strip_ws_of_no_ws (l : List Char) (h : ∀ c ∈ l, is_py_space c = false) :
    strip_ws l = l := by
  unfold strip_ws
  rw [dropWhile_no_ws l h, dropWhile_no_ws l.reverse (fun c hc => h c (List.mem_reverse.mp hc)),
    List.reverse_reverse]

lemma mem_strip_ws {l : List Char} {c : Char} (h : c ∈ strip_ws l) : c ∈ l := by
  unfold strip_ws at h
  rw [List.mem_reverse] at h
  have h2 := List.dropWhile_subset _ h
  rw [List.mem_reverse] at h2
  exact List.dropWhile_subset _ h2

lemma py_lower_eq_self (c : Char) (h : good_sel_char c = true) : py_lower c = c := by
  simp only [good_sel_char, decide_eq_true_eq] at h
  unfold py_lower Char.toLower
  exact if_neg h.2.2.2.1

lemma py_split_ne_nil (sep : Char) (l : List Char) : py_split sep l ≠ [] := by
  cases l with
  | nil => simp [py_split]
  | cons a t =>
    simp only [py_split]
    rcases h : py_split sep t with _ | ⟨p, ps⟩
    · simp
    · by_cases ha : a = sep <;> simp [ha]

lemma py_split_subset (sep : Char) (l : List Char) :
    ∀ p ∈ py_split sep l, ∀ c ∈ p, c ∈ l := by
  induction l with
  | nil =>
    intro p hp c hc
    simp [py_split] at hp
    subst hp
    simp at hc
  | cons a t ih =>
    intro p hp c hc
    rcases hps : py_split sep t with _ | ⟨q, qs⟩
    · exact absurd hps (py_split_ne_nil sep t)
    · replace hp : p ∈ (if a = sep then [] :: q :: qs else (a :: q) :: qs) := by
        rw [py_split, hps] at hp
        exact hp
      by_cases ha : a = sep
      · rw [if_pos ha] at hp
        rcases List.mem_cons.mp hp with hp | hp
        · subst hp; simp at hc
        · exact List.mem_cons_of_mem a (ih p (hps ▸ hp) c hc)
      · rw [if_neg ha] at hp
        rcases List.mem_cons.mp hp with hp | hp
        · subst hp
          rcases List.mem_cons.mp hc with hc | hc
          · exact hc ▸ List.mem_cons_self a t
          · exact List.mem_cons_of_mem a
              (ih q (hps ▸ List.mem_cons_self q qs) c hc)
        · exact List.mem_cons_of_mem a
            (ih p (hps ▸ List.mem_cons_of_mem q hp) c hc)

lemma split_once_spec (sep : Char) (l : List Char) (h : sep ∈ l) :
    l = (split_once sep l).1 ++ sep :: (split_once sep l).2 ∧
      sep ∉ (split_once sep l).1 := by
  induction l with
  | nil => simp at h
  | cons a t ih =>
    by_cases ha : a = sep
    · subst ha
      simp [split_once]
    · have ht : sep ∈ t := by
        rcases List.mem_cons.mp h with h | h
        · exact absurd h.symm ha
        · exact h
      obtain ⟨h1, h2⟩ := ih ht
      constructor
      · simp only [split_once, if_neg ha, List.cons_append]
        exact congrArg (a :: ·) h1
      · simp only [split_once, if_neg ha]
        intro hm
        rcases List.mem_cons.mp hm with hm | hm
        · exact ha hm.symm
        · exact h2 hm

lemma py_int_eq_py_digits (l : List Char) (hws : ∀ c ∈ l, is_py_space c = false)
    (hplus : ∀ c ∈ l, c ≠ '+') (hminus : ∀ r, l ≠ '-' :: r) :
    py_int l = py_digits l := by
  unfold py_int
  rw [strip_ws_of_no_ws l hws]
  cases l with
  | nil => simp [py_digits, py_digit_group]
  | cons c r =>
    show (if c = '+' then py_digits r
      else if c = '-' then (py_digits r).map (fun n => -n)
      else py_digits (c :: r)) = py_digits (c :: r)
    rw [if_neg (hplus c (List.mem_cons_self c r)),
      if_neg (fun hc : c = '-' => hminus r (by rw [hc]))]

lemma finalize_indices_union (m : Nat) (A B : Finset Int) :
    finalize_indices m (A ∪ B) = finalize_indices m A ∪ finalize_indices m B := by
  simp [finalize_indices, Finset.filter_union, Finset.image_union]

lemma finalize_indices_empty (m : Nat) : finalize_indices m ∅ = ∅ := by
  simp [finalize_indices]

lemma finalize_indices_Icc (m a b : Nat) :
    finalize_indices m (Finset.Icc (a : Int) (b : Int)) =
    (Finset.Icc a b).filter (fun i => 1 ≤ i ∧ i ≤ m) := by
  ext n
  simp only [finalize_indices, Finset.mem_image, Finset.mem_filter, Finset.mem_Icc]
  constructor
  · rintro ⟨j, ⟨⟨hja, hjb⟩, h1, h2⟩, rfl⟩
    omega
  · rintro ⟨⟨ha, hb⟩, h1, h2⟩
    exact ⟨(n : Int), ⟨⟨by omega, by omega⟩, by omega, by omega⟩, by omega⟩

lemma finalize_indices_Icc_nonpos (m : Nat) (a b : Int) (hb : b ≤ 0) :
    finalize_indices m (Finset.Icc a b) = ∅ := by
  ext n
  simp only [finalize_indices, Finset.mem_image, Finset.mem_filter, Finset.mem_Icc,
    Finset.not_mem_empty, iff_false]
  rintro ⟨j, ⟨⟨hja, hjb⟩, h1, h2⟩, rfl⟩
  omega

lemma finalize_indices_singleton (m v : Nat) :
    finalize_indices m {(v : Int)} =
      if 1 ≤ v ∧ v ≤ m then {v} else ∅ := by
  rw [← Finset.Icc_self, finalize_indices_Icc]
  by_cases h : 1 ≤ v ∧ v ≤ m
  · rw [if_pos h]
    ext n
    simp only [Finset.mem_filter, Finset.mem_Icc, Finset.mem_singleton]
    omega
  · rw [if_neg h]
    ext n
    simp only [Finset.mem_filter, Finset.mem_Icc, Finset.not_mem_empty, iff_false]
    omega

lemma mem_finalize_indices (m : Nat) (S : Finset Int) (i : Nat)
    (h : i ∈ finalize_indices m S) : 1 ≤ i ∧ i ≤ m := by
  simp only [finalize_indices, Finset.mem_image, Finset.mem_filter] at h
  obtain ⟨j, ⟨-, h1, h2⟩, rfl⟩ := h
  omega

lemma filter_ne_underscore (l : List Char) (h : '_' ∉ l) :
    l.filter (fun c => c != '_') = l := by
  rw [List.filter_eq_self]
  intro a ha
  simp only [bne_iff_ne, ne_eq]
  intro hcon
  exact h (hcon ▸ ha)

lemma py_digit_group_no_underscore (l : List Char) (h : '_' ∉ l) :
    py_digit_group l = true ↔ l ≠ [] ∧ l.all Char.isDigit = true := by
  induction l with
  | nil => simp [py_digit_group]
  | cons c t ih =>
    cases t with
    | nil => simp [py_digit_group]
    | cons d rest =>
      have hd : d ≠ '_' := fun hcon =>
        h (List.mem_cons_of_mem c (hcon ▸ List.mem_cons_self d rest))
      have ht : '_' ∉ d :: rest := fun hm => h (List.mem_cons_of_mem c hm)
      simp only [py_digit_group, if_neg hd, Bool.and_eq_true, ih ht, List.all_cons]
      simp

lemma py_digits_of_all_digits (l : List Char) (h : l ≠ [] ∧ l.all Char.isDigit = true) :
    py_digits l = some (digits_val l : Int) := by
  have hu : '_' ∉ l := by
    intro hm
    exact absurd (List.all_eq_true.mp h.2 '_' hm) (by decide)
  unfold py_digits
  rw [if_pos ((py_digit_group_no_underscore l hu).mpr h), filter_ne_underscore l hu]

lemma py_digits_some_elim (l : List Char) (v : Int) (hu : '_' ∉ l)
    (h : py_digits l = some v) :
    (l ≠ [] ∧ l.all Char.isDigit = true) ∧ v = (digits_val l : Int) := by
  unfold py_digits at h
  by_cases hg : py_digit_group l = true
  · rw [if_pos hg, filter_ne_underscore l hu] at h
    exact ⟨(py_digit_group_no_underscore l hu).mp hg, (Option.some.inj h).symm⟩
  · rw [if_neg hg] at h
    exact absurd h (by simp)

lemma py_digits_nonneg (l : List Char) (v : Int) (h : py_digits l = some v) : 0 ≤ v := by
  unfold py_digits at h
  by_cases hg : py_digit_group l = true
  · rw [if_pos hg] at h
    rw [← Option.some.inj h]
    exact Int.natCast_nonneg _
  · rw [if_neg hg] at h
    exact absurd h (by simp)

lemma py_int_cases (l : List Char) (hws : ∀ c ∈ l, is_py_space c = false)
    (hplus : ∀ c ∈ l, c ≠ '+') :
    py_int l = py_digits l ∨
    ∃ r, l = '-' :: r ∧ py_int l = (py_digits r).map (fun n => -n) := by
  cases l with
  | nil =>
    left
    simp [py_int, py_digits, py_digit_group, strip_ws]
  | cons c r =>
    by_cases hc : c = '-'
    · right
      subst hc
      refine ⟨r, rfl, ?_⟩
      unfold py_int
      rw [strip_ws_of_no_ws _ hws]
      show (if '-' = '+' then py_digits r
        else if '-' = '-' then (py_digits r).map (fun n => -n)
        else py_digits ('-' :: r)) = (py_digits r).map (fun n => -n)
      rw [if_neg (by decide), if_pos rfl]
    · left
      refine py_int_eq_py_digits (c :: r) hws hplus ?_
      intro r2 hr2
      exact hc (List.cons.inj hr2).1

/-- Per-token equality of the source parser and the grammar parser, under
the good-character alphabet. -/
lemma token_eq (m : Nat) (A : Finset Int) (part : List Char)
    (hg : ∀ c ∈ part, good_sel_char c = true) (hspace : ' ' ∉ part) :
    finalize_indices m (parse_token m A part) =
    finalize_indices m A ∪ grammar_token m part := by
  have hspws : ∀ c ∈ part, c = ' ' ∨ is_py_space c = false := by
    intro c hc
    have h := hg c hc
    simp only [good_sel_char, decide_eq_true_eq] at h
    exact h.2.2.2.2
  have hnws : ∀ c ∈ part, is_py_space c = false := by
    intro c hc
    rcases hspws c hc with h | h
    · exact absurd (h ▸ hc) hspace
    · exact h
  have hnplus : ∀ c ∈ part, c ≠ '+' := by
    intro c hc
    have h := hg c hc
    simp only [good_sel_char, decide_eq_true_eq] at h
    exact h.2.1
  have hnund : ∀ c ∈ part, c ≠ '_' := by
    intro c hc
    have h := hg c hc
    simp only [good_sel_char, decide_eq_true_eq] at h
    exact h.2.2.1
  by_cases hpe : part = []
  · subst hpe
    simp [parse_token, grammar_token]
  · by_cases hd : '-' ∈ part
    · have hnotall : ¬(part ≠ [] ∧ part.all Char.isDigit) := by
        rintro ⟨-, hall⟩
        exact absurd (List.all_eq_true.mp hall '-' hd) (by decide)
      rcases hsp0 : split_once '-' part with ⟨p1, p2⟩
      obtain ⟨hdec, hnm⟩ := split_once_spec '-' part hd
      rw [hsp0] at hdec hnm
      dsimp only at hdec hnm
      have hL : parse_token m A part =
          (match py_int p1, py_int p2 with
           | some st, some en => A ∪ Finset.Icc st en
           | _, _ => A) := by
        unfold parse_token
        rw [if_neg hpe, if_pos hd, hsp0]
      have hsub1 : ∀ c ∈ p1, c ∈ part := by
        intro c hc
        rw [hdec]
        exact List.mem_append_left _ hc
      have hsub2 : ∀ c ∈ p2, c ∈ part := by
        intro c hc
        rw [hdec]
        exact List.mem_append_right _ (List.mem_cons_of_mem _ hc)
      have hu1 : '_' ∉ p1 := fun hm => hnund '_' (hsub1 _ hm) rfl
      have hu2 : '_' ∉ p2 := fun hm => hnund '_' (hsub2 _ hm) rfl
      have hint1 : py_int p1 = py_digits p1 :=
        py_int_eq_py_digits p1 (fun c hc => hnws c (hsub1 c hc))
          (fun c hc => hnplus c (hsub1 c hc))
          (fun r hr => hnm (by rw [hr]; exact List.mem_cons_self _ _))
      rcases hd1 : py_digits p1 with _ | v1
      · have hcond : ¬(p1 ≠ [] ∧ p1.all Char.isDigit ∧ p2 ≠ [] ∧ p2.all Char.isDigit) := by
          rintro ⟨h1, h2, -, -⟩
          rw [py_digits_of_all_digits p1 ⟨h1, h2⟩] at hd1
          exact Option.noConfusion hd1
        have hR : grammar_token m part = ∅ := by
          unfold grammar_token
          rw [if_neg hnotall, if_pos hd, hsp0, if_neg hcond]
        rw [hL, hR, hint1, hd1]
        rcases py_int p2 with _ | v2 <;> simp
      · obtain ⟨hp1v, hv1⟩ := py_digits_some_elim p1 v1 hu1 hd1
        rcases py_int_cases p2 (fun c hc => hnws c (hsub2 c hc))
            (fun c hc => hnplus c (hsub2 c hc)) with hcase | ⟨r2, hr2, hcase⟩
        · rcases hd2 : py_digits p2 with _ | v2
          · have hcond : ¬(p1 ≠ [] ∧ p1.all Char.isDigit ∧ p2 ≠ [] ∧ p2.all Char.isDigit) := by
              rintro ⟨-, -, h3, h4⟩
              rw [py_digits_of_all_digits p2 ⟨h3, h4⟩] at hd2
              exact Option.noConfusion hd2
            have hR : grammar_token m part = ∅ := by
              unfold grammar_token
              rw [if_neg hnotall, if_pos hd, hsp0, if_neg hcond]
            rw [hL, hR, hint1, hd1, hcase, hd2]
            simp
          · obtain ⟨hp2v, hv2⟩ := py_digits_some_elim p2 v2 hu2 hd2
            have hR : grammar_token m part =
                (Finset.Icc (digits_val p1) (digits_val p2)).filter
                  (fun i => 1 ≤ i ∧ i ≤ m) := by
              unfold grammar_token
              rw [if_neg hnotall, if_pos hd, hsp0,
                if_pos ⟨hp1v.1, hp1v.2, hp2v.1, hp2v.2⟩]
            rw [hL, hR, hint1, hd1, hcase, hd2]
            dsimp only
            rw [hv1, hv2, finalize_indices_union, finalize_indices_Icc]
        · have hp2all : ¬(p2.all Char.isDigit = true) := by
            intro hall
            rw [hr2] at hall
            exact absurd (List.all_eq_true.mp hall '-' (List.mem_cons_self _ _)) (by decide)
          have hcond : ¬(p1 ≠ [] ∧ p1.all Char.isDigit ∧ p2 ≠ [] ∧ p2.all Char.isDigit) := by
            rintro ⟨-, -, -, h4⟩
            exact hp2all h4
          have hR : grammar_token m part = ∅ := by
            unfold grammar_token
            rw [if_neg hnotall, if_pos hd, hsp0, if_neg hcond]
          rcases hdr : py_digits r2 with _ | vr
          · rw [hL, hR, hint1, hd1, hcase, hdr]
            simp
          · have hvr := py_digits_nonneg r2 vr hdr
            rw [hL, hR, hint1, hd1, hcase, hdr]
            simp only [Option.map_some']
            rw [finalize_indices_union, finalize_indices_Icc_nonpos m _ _ (by omega)]
    · have hint : py_int part = py_digits part :=
        py_int_eq_py_digits part hnws hnplus
          (fun r hr => hd (by rw [hr]; exact List.mem_cons_self _ _))
      have hL : parse_token m A part =
          (match py_int part with
           | some num => if 1 ≤ num ∧ num ≤ (m : Int) then A ∪ {num} else A
           | none => A) := by
        unfold parse_token
        rw [if_neg hpe, if_neg hd]
      rcases hdg : py_digits part with _ | v
      · have hna : ¬(part ≠ [] ∧ part.all Char.isDigit) := by
          intro hcon
          rw [py_digits_of_all_digits part hcon] at hdg
          exact Option.noConfusion hdg
        have hR : grammar_token m part = ∅ := by
          unfold grammar_token
          rw [if_neg hna, if_neg hd]
        rw [hL, hR, hint, hdg]
        simp
      · have hup : '_' ∉ part := fun hm => hnund '_' hm rfl
        obtain ⟨hpv, hv⟩ := py_digits_some_elim part v hup hdg
        have hR : grammar_token m part =
            (if 1 ≤ digits_val part ∧ digits_val part ≤ m then {digits_val part} else ∅) := by
          unfold grammar_token
          rw [if_pos hpv]
        rw [hL, hR, hint, hdg, hv]
        dsimp only
        by_cases hb : 1 ≤ digits_val part ∧ digits_val part ≤ m
        · rw [if_pos (by exact_mod_cast hb), if_pos hb, finalize_indices_union,
            finalize_indices_singleton, if_pos hb]
        · rw [if_neg (by exact_mod_cast hb), if_neg hb, Finset.union_empty]

/-- Folding the token loop commutes with the final range filter and
matches the grammar-level fold. -/
lemma fold_token_eq (m : Nat) (parts : List (List Char)) (A : Finset Int)
    (hg : ∀ p ∈ parts, (∀ c ∈ p, good_sel_char c = true) ∧ ' ' ∉ p) :
    finalize_indices m (parts.foldl (parse_token m) A) =
    parts.foldl (fun acc part => acc ∪ grammar_token m part) (finalize_indices m A) := by
  induction parts generalizing A with
  | nil => rfl
  | cons p ps ih =>
    simp only [List.foldl_cons]
    rw [ih _ (fun q hq => hg q (List.mem_cons_of_mem p hq)),
      token_eq m A p (hg p (List.mem_cons_self p ps)).1 (hg p (List.mem_cons_self p ps)).2]

/-- The two dispatches agree on inputs over the good alphabet. -/
lemma parse_core_eq_grammar_core (m : Nat) (s : List Char)
    (hg : ∀ c ∈ s, good_sel_char c = true) :
    parse_selection_core m s = grammar_parse_core m s := by
  unfold parse_selection_core grammar_parse_core
  by_cases h1 : s = [] ∨ s = "none".toList ∨ s = "n".toList ∨ s = "q".toList
  · rw [if_pos h1, if_pos h1]
  · rw [if_neg h1, if_neg h1]
    by_cases h2 : s = "all".toList
    · rw [if_pos h2, if_pos h2]
    · rw [if_neg h2, if_neg h2]
      have hfe : s.filter (fun c => !(is_py_space c)) = s.filter (fun c => c != ' ') := by
        apply List.filter_congr
        intro c hc
        have hgc : c = ' ' ∨ is_py_space c = false := by
          have := hg c hc
          simp only [good_sel_char, decide_eq_true_eq] at this
          exact this.2.2.2.2
        rcases hgc with hgc | hgc
        · subst hgc
          decide
        · simp [hgc, bne]
          intro hcon
          subst hcon
          simp [is_py_space] at hgc
      rw [hfe]
      have hparts : ∀ p ∈ py_split ',' (s.filter (fun c => c != ' ')),
          (∀ c ∈ p, good_sel_char c = true) ∧ ' ' ∉ p := by
        intro p hp
        constructor
        · intro c hc
          have hcs := py_split_subset ',' _ p hp c hc
          exact hg c (List.mem_of_mem_filter hcs)
        · intro hsp
          have hcs := py_split_subset ',' _ p hp ' ' hsp
          have := List.of_mem_filter hcs
          simp at this
      rw [fold_token_eq m _ ∅ hparts, finalize_indices_empty]

/-- C7 fails as stated: the claim demands grammar agreement for every
input string, but the source parses tokens with Python int, which accepts
underscore-grouped numerals the grammar rejects, and it removes only
literal spaces inside the token list while the grammar ignores all
whitespace.  On `1_0` against maxIndex 10 the code yields `{10}` where
the grammar yields the empty set; on a token split by a tab the code
yields the empty set where the whitespace-ignoring grammar yields an
index. -/
theorem C7_counterexample :
    parse_selection "1_0" 10 = {10} ∧ selection_grammar_parse "1_0" 10 = ∅ ∧
    parse_selection "1_0" 10 ≠ selection_grammar_parse "1_0" 10 ∧
    parse_selection "1\t2" 20 = ∅ ∧ selection_grammar_parse "1\t2" 20 = {12} := by
  exact ⟨by decide, by decide, by decide, by decide, by decide⟩

/-- C7 amended: `parse_selection` never raises (it is a total function)
and, for inputs over the grammar alphabet (ASCII without plus signs,
underscores, uppercase letters, or whitespace other than the plain
space), returns exactly the index set of the specification grammar;
outside that alphabet the code follows Python int semantics instead.
For every input it keeps the result within 1..maxIndex, expands `all`,
maps the empty input and the `none`, `n` and `q` markers to the empty
set, and satisfies the concrete examples of the specification. -/
theorem C7_parse_selection_follows_grammar :
    (∀ (s : String) (n : Nat), (∀ c ∈ s.toList, good_sel_char c = true) →
      parse_selection s n = selection_grammar_parse s n) ∧
    (∀ (s : String) (n i : Nat), i ∈ parse_selection s n → 1 ≤ i ∧ i ≤ n) ∧
    (∀ n, parse_selection "all" n = Finset.Icc 1 n) ∧
    (∀ n, parse_selection "" n = ∅ ∧ parse_selection "none" n = ∅ ∧
      parse_selection "n" n = ∅ ∧ parse_selection "q" n = ∅) ∧
    parse_selection "1,3-5,8" 10 = {1, 3, 4, 5, 8} ∧
    parse_selection "all" 4 = {1, 2, 3, 4} ∧
    parse_selection "99" 10 = ∅ := by
  refine ⟨?_, ?_, ?_, ?_, by decide, by decide, by decide⟩
  · intro s n hgs
    unfold parse_selection selection_grammar_parse
    have hid : (strip_ws s.toList).map py_lower = strip_ws s.toList := by
      rw [show (strip_ws s.toList).map py_lower = (strip_ws s.toList).map id from
        List.map_congr_left (fun c hc => py_lower_eq_self c (hgs c (mem_strip_ws hc))),
        List.map_id]
    rw [hid]
    exact parse_core_eq_grammar_core n _ (fun c hc => hgs c (mem_strip_ws hc))
  · intro s n i hi
    unfold parse_selection parse_selection_core at hi
    split at hi
    · simp at hi
    · split at hi
      · exact Finset.mem_Icc.mp hi
      · exact mem_finalize_indices n _ i hi
  · intro n
    unfold parse_selection
    rw [show (strip_ws "all".toList).map py_lower = "all".toList from by decide]
    unfold parse_selection_core
    rw [if_neg (by decide), if_pos rfl]
  · intro n
    refine ⟨?_, ?_, ?_, ?_⟩
    · unfold parse_selection
      rw [show (strip_ws "".toList).map py_lower = "".toList from by decide]
      unfold parse_selection_core
      rw [if_pos (by decide)]
    · unfold parse_selection
      rw [show (strip_ws "none".toList).map py_lower = "none".toList from by decide]
      unfold parse_selection_core
      rw [if_pos (by decide)]
    · unfold parse_selection
      rw [show (strip_ws "n".toList).map py_lower = "n".toList from by decide]
      unfold parse_selection_core
      rw [if_pos (by decide)]
    · unfold parse_selection
      rw [show (strip_ws "q".toList).map py_lower = "q".toList from by decide]
      unfold parse_selection_core
      rw [if_pos (by decide)]

/-- Concrete instance of C7: the grammar correspondence applied to an
input with a range, whitespace, an out-of-range value and a malformed
token, and the boundedness fact applied to a concrete member. -/
theorem C7_witness :
    parse_selection "2-4, 6,x" 5 = selection_grammar_parse "2-4, 6,x" 5 ∧
    (1 ≤ 3 ∧ 3 ≤ 10) :=
  ⟨C7_parse_selection_follows_grammar.1 "2-4, 6,x" 5 (by decide),
   C7_parse_selection_follows_grammar.2.1 "1,3-5,8" 10 3 (by decide)⟩

lemma mem_dedup_first (l : List String) (y : String) : y ∈ dedup_first l ↔ y ∈ l := by
  induction l with
  | nil => simp [dedup_first]
  | cons x xs ih =>
    simp only [dedup_first, List.mem_cons, List.mem_filter]
    constructor
    · rintro (h | ⟨h, -⟩)
      · exact Or.inl h
      · exact Or.inr (ih.mp h)
    · rintro (h | h)
      · exact Or.inl h
      · by_cases hx : y = x
        · exact Or.inl hx
        · exact Or.inr ⟨ih.mpr h, by simp [hx]⟩

lemma lookup_last_mem {l : List Entity} {id : String} {e : Entity}
    (h : lookup_last l id = some e) : e ∈ l ∧ e.entity_id = id := by
  unfold lookup_last at h
  have h1 := List.mem_of_getLast?_eq_some h
  exact ⟨List.mem_of_mem_filter h1, by simpa using List.of_mem_filter h1⟩

lemma filter_id_eq_single (l : List Entity)
    (hnd : (l.map (fun e => e.entity_id)).Nodup) (e : Entity) (he : e ∈ l) :
    l.filter (fun x => x.entity_id == e.entity_id) = [e] := by
  induction l with
  | nil => simp at he
  | cons a t ih =>
    simp only [List.map_cons, List.nodup_cons] at hnd
    rcases List.mem_cons.mp he with he | he
    · subst he
      rw [List.filter_cons_of_pos (by simp)]
      have ht : t.filter (fun x => x.entity_id == e.entity_id) = [] := by
        rw [List.filter_eq_nil_iff]
        intro x hx
        simp only [beq_iff_eq]
        intro hcon
        exact hnd.1 (hcon ▸ List.mem_map_of_mem _ hx)
      rw [ht]
    · have hne : a.entity_id ≠ e.entity_id := by
        intro hcon
        exact hnd.1 (hcon ▸ List.mem_map_of_mem _ he)
      rw [List.filter_cons_of_neg (by simp [hne])]
      exact ih hnd.2 he

lemma lookup_last_of_nodup {l : List Entity}
    (hnd : (l.map (fun e => e.entity_id)).Nodup) {e : Entity} (he : e ∈ l) :
    lookup_last l e.entity_id = some e := by
  unfold lookup_last
  rw [filter_id_eq_single l hnd e he]
  rfl

lemma deleted_bucket_iff (bl cl : List Entity)
    (hndb : (bl.map (fun e => e.entity_id)).Nodup) (e : Entity) :
    e ∈ ((dedup_first (bl.map (fun x => x.entity_id))).filter
        (fun i => decide (i ∉ dedup_first (cl.map (fun x => x.entity_id))))).filterMap
      (lookup_last bl) ↔
    e ∈ bl ∧ e.entity_id ∉ cl.map (fun x => x.entity_id) := by
  rw [List.mem_filterMap]
  constructor
  · rintro ⟨i, hi, hlk⟩
    obtain ⟨he, hid⟩ := lookup_last_mem hlk
    rw [List.mem_filter] at hi
    refine ⟨he, ?_⟩
    have h2 := of_decide_eq_true hi.2
    rw [hid]
    intro hcon
    exact h2 ((mem_dedup_first _ _).mpr hcon)
  · rintro ⟨he, hnm⟩
    refine ⟨e.entity_id, ?_, lookup_last_of_nodup hndb he⟩
    rw [List.mem_filter]
    refine ⟨(mem_dedup_first _ _).mpr (List.mem_map_of_mem _ he), decide_eq_true ?_⟩
    intro hcon
    exact hnm ((mem_dedup_first _ _).mp hcon)

lemma modified_bucket_iff (bl cl : List Entity)
    (hndb : (bl.map (fun e => e.entity_id)).Nodup)
    (hndc : (cl.map (fun e => e.entity_id)).Nodup) (x y : Entity) :
    (x, y) ∈ ((dedup_first (bl.map (fun e => e.entity_id))).filter
        (fun i => decide (i ∈ dedup_first (cl.map (fun e => e.entity_id))))).filterMap
      (fun i =>
        match lookup_last bl i, lookup_last cl i with
        | some a, some b => if entity_fields_differ a b then some (a, b) else none
        | _, _ => none) ↔
    x ∈ bl ∧ y ∈ cl ∧ x.entity_id = y.entity_id ∧ entity_fields_differ x y = true := by
  rw [List.mem_filterMap]
  constructor
  · rintro ⟨i, hi, hf⟩
    rcases ha : lookup_last bl i with _ | a
    · rw [ha] at hf
      exact absurd hf (by simp)
    · rcases hb : lookup_last cl i with _ | b
      · rw [ha, hb] at hf
        exact absurd hf (by simp)
      · rw [ha, hb] at hf
        dsimp only at hf
        by_cases hd : entity_fields_differ a b
        · rw [if_pos hd] at hf
          have hab := Option.some.inj hf
          rw [Prod.mk.injEq] at hab
          obtain ⟨rfl, rfl⟩ := hab
          obtain ⟨hma, hia⟩ := lookup_last_mem ha
          obtain ⟨hmb, hib⟩ := lookup_last_mem hb
          exact ⟨hma, hmb, by rw [hia, hib], hd⟩
        · rw [if_neg hd] at hf
          exact absurd hf (by simp)
  · rintro ⟨hx, hy, hid, hdf⟩
    refine ⟨x.entity_id, ?_, ?_⟩
    · rw [List.mem_filter]
      refine ⟨(mem_dedup_first _ _).mpr (List.mem_map_of_mem _ hx), decide_eq_true ?_⟩
      exact (mem_dedup_first _ _).mpr (List.mem_map.mpr ⟨y, hy, hid.symm⟩)
    · rw [lookup_last_of_nodup hndb hx,
        show lookup_last cl x.entity_id = some y from by
          rw [hid]; exact lookup_last_of_nodup hndc hy]
      simp [hdf]

/-- C6: compare_registries partitions entities by entity id into the
deleted bucket (present only in the snapshot), the new bucket (present
only in the live registry), and the modified bucket (present in both and
differing on at least one of platform, device_id, config_entry_id,
original_name, disabled_by, with absence distinct from any present
value), stated for registries whose entity ids are duplicate-free.  The
second conjunct is the scenario from the specification: snapshot
entities A and B against live entities A and C yield deleted=[B],
new=[C], modified=[]. -/
theorem C6_compare_registries_partition :
    (∀ (backup_data current_data : Doc),
      ((backup_data.entities?.getD []).map (fun e => e.entity_id)).Nodup →
      ((current_data.entities?.getD []).map (fun e => e.entity_id)).Nodup →
      ((∀ e, e ∈ (compare_registries backup_data current_data).deleted ↔
          e ∈ backup_data.entities?.getD [] ∧
            e.entity_id ∉ (current_data.entities?.getD []).map (fun x => x.entity_id)) ∧
       (∀ e, e ∈ (compare_registries backup_data current_data).new ↔
          e ∈ current_data.entities?.getD [] ∧
            e.entity_id ∉ (backup_data.entities?.getD []).map (fun x => x.entity_id)) ∧
       (∀ x y, (x, y) ∈ (compare_registries backup_data current_data).modified ↔
          x ∈ backup_data.entities?.getD [] ∧ y ∈ current_data.entities?.getD [] ∧
          x.entity_id = y.entity_id ∧
          (x.platform ≠ y.platform ∨ x.device_id ≠ y.device_id ∨
           x.config_entry_id ≠ y.config_entry_id ∨ x.original_name ≠ y.original_name ∨
           x.disabled_by ≠ y.disabled_by)))) ∧
    compare_registries
      { entities? := some [{ entity_id := "sensor.a", platform := some "sensor" },
                           { entity_id := "sensor.b", platform := some "sensor" }] }
      { entities? := some [{ entity_id := "sensor.a", platform := some "sensor" },
                           { entity_id := "sensor.c", platform := some "sensor" }] } =
    ⟨[{ entity_id := "sensor.b", platform := some "sensor" }],
     [{ entity_id := "sensor.c", platform := some "sensor" }], []⟩ := by
  constructor
  · intro b c hndb hndc
    refine ⟨fun e => ?_, fun e => ?_, fun x y => ?_⟩
    · exact deleted_bucket_iff _ _ hndb e
    · exact deleted_bucket_iff _ _ hndc e
    · rw [show (compare_registries b c).modified =
          ((dedup_first ((b.entities?.getD []).map (fun e => e.entity_id))).filter
            (fun i => decide
              (i ∈ dedup_first ((c.entities?.getD []).map (fun e => e.entity_id))))).filterMap
            (fun i =>
              match lookup_last (b.entities?.getD []) i,
                  lookup_last (c.entities?.getD []) i with
              | some a, some bb => if entity_fields_differ a bb then some (a, bb) else none
              | _, _ => none) from rfl,
        modified_bucket_iff _ _ hndb hndc]
      simp only [entity_fields_differ, decide_eq_true_eq]
  · decide

/-- Concrete instance of C6, obtained by instantiating the partition
statement: in the scenario of the specification the snapshot-only entity
B lands in the deleted bucket. -/
theorem C6_witness :
    ({ entity_id := "sensor.b", platform := some "sensor" } : Entity) ∈
      (compare_registries
        { entities? := some [{ entity_id := "sensor.a", platform := some "sensor" },
                             { entity_id := "sensor.b", platform := some "sensor" }] }
        { entities? := some [{ entity_id := "sensor.a", platform := some "sensor" },
                             { entity_id := "sensor.c", platform := some "sensor" }] }).deleted :=
  ((C6_compare_registries_partition.1
      { entities? := some [{ entity_id := "sensor.a", platform := some "sensor" },
                           { entity_id := "sensor.b", platform := some "sensor" }] }
      { entities? := some [{ entity_id := "sensor.a", platform := some "sensor" },
                           { entity_id := "sensor.c", platform := some "sensor" }] }
      (by decide) (by decide)).1
    { entity_id := "sensor.b", platform := some "sensor" }).mpr ⟨by decide, by decide⟩

lemma temp_name_ne (path : String) (pid : Nat) : temp_name path pid ≠ path := by
  intro hcon
  have h1 := congrArg String.length hcon
  rw [temp_name, String.length_append, String.length_append] at h1
  have h5 : (".tmp." : String).length = 5 := rfl
  omega

/-- C5: if save_json fails at any point, including after the temporary
file is written but before the atomic rename, then the temporary file is
removed, the save error is raised, and the target file is left exactly as
it was before the save, with no partial file at the target path. -/
theorem C5_save_json_failure_atomic :
    ∀ (fs : Fs) (path : String) (data : Doc) (pid : Nat) (step : SaveStep),
      (save_json fs path data (some step) pid).ok = false ∧
      (save_json fs path data (some step) pid).fs path = fs path ∧
      (save_json fs path data (some step) pid).fs (temp_name path pid) = none := by
  intro fs path data pid step
  have hne := temp_name_ne path pid
  cases step <;>
    simp [save_json, fs_set, hne, Ne.symm hne]

lemma covered_by_mono (seen1 seen2 : List String) (t : List Event)
    (hsub : ∀ s ∈ seen1, s ∈ seen2) (h : covered_by seen1 t = true) :
    covered_by seen2 t = true := by
  induction t generalizing seen1 seen2 with
  | nil => rfl
  | cons ev rest ih =>
    cases ev with
    | snapshot p =>
      refine ih (p :: seen1) (p :: seen2) ?_ h
      intro s hs
      rcases List.mem_cons.mp hs with hs | hs
      · exact hs ▸ List.mem_cons_self _ _
      · exact List.mem_cons_of_mem _ (hsub s hs)
    | write p =>
      simp only [covered_by, Bool.and_eq_true] at h ⊢
      refine ⟨?_, ih seen1 seen2 hsub h.2⟩
      have hp : p ∈ seen1 := by simpa using h.1
      simpa using hsub p hp

lemma safe_trace_nil : safe_trace [] = true := rfl

lemma safe_trace_snap (p : String) : safe_trace [.snapshot p] = true := rfl

lemma safe_trace_snap_write (p : String) :
    safe_trace [.snapshot p, .write p] = true := by
  simp [safe_trace, covered_by]

lemma safe_trace_append (t1 t2 : List Event) (h1 : safe_trace t1 = true)
    (h2 : safe_trace t2 = true) : safe_trace (t1 ++ t2) = true := by
  unfold safe_trace at h1 ⊢
  suffices h : ∀ seen, covered_by seen t1 = true → covered_by seen (t1 ++ t2) = true from
    h [] h1
  clear h1
  induction t1 with
  | nil =>
    intro seen hc
    simp only [List.nil_append]
    refine covered_by_mono [] seen t2 ?_ h2
    intro s hs
    simp at hs
  | cons ev rest ih =>
    intro seen hc
    cases ev with
    | snapshot p =>
      simp only [List.cons_append, covered_by] at hc ⊢
      exact ih (p :: seen) hc
    | write p =>
      simp only [List.cons_append, covered_by, Bool.and_eq_true] at hc ⊢
      exact ⟨hc.1, ih seen hc.2⟩

lemma safe_of_shapes (t : List Event) (p : String)
    (h : t = [] ∨ t = [.snapshot p] ∨ t = [.snapshot p, .write p]) :
    safe_trace t = true := by
  rcases h with h | h | h <;> rw [h]
  · exact safe_trace_nil
  · exact safe_trace_snap p
  · exact safe_trace_snap_write p

lemma cleanup_deleted_one_trace (fs : Fs) (path : String) (ue dry : Bool) (ts : String)
    (sfail : Option SaveStep) (pid : Nat) :
    (cleanup_deleted_one fs path ue dry ts sfail pid).1 = [] ∨
    (cleanup_deleted_one fs path ue dry ts sfail pid).1 = [.snapshot path] ∨
    (cleanup_deleted_one fs path ue dry ts sfail pid).1 = [.snapshot path, .write path] := by
  simp only [cleanup_deleted_one]
  repeat' split
  all_goals simp

/-- C1: in every run of the five registry-mutating operations, a
snapshot of the target file is created via backup_file before any write
of it: the event trace of each operation never contains a write of a path
without an earlier snapshot of that same path. -/
theorem C1_snapshot_before_every_write :
    (∀ (fs : Fs) (idx : DefIdx) (dry_run : Bool) (ts : String) (sfail : Option SaveStep)
      (pid : Nat),
      safe_trace (cleanup_orphaned_entities fs idx dry_run ts sfail pid).1 = true) ∧
    (∀ (fs : Fs) (dry_run : Bool) (ts : String) (sfail : Option SaveStep) (pid : Nat),
      safe_trace (cleanup_deleted_items fs dry_run ts sfail pid).1 = true) ∧
    (∀ (fs : Fs) (dry_run : Bool) (sel_input : Option String) (confirm : Bool) (ts : String)
      (sfail : Option SaveStep) (pid : Nat),
      safe_trace (fix_entity_suffix fs dry_run sel_input confirm ts sfail pid).1 = true) ∧
    (∀ (fs : Fs) (backup_path : String) (dry_run : Bool) (sel_input : Option String)
      (confirm : Bool) (stop_method : Option String) (manual_ok : Bool) (ts : String)
      (sfail : Option SaveStep) (pid : Nat),
      safe_trace (selective_restore_entities fs backup_path dry_run sel_input confirm
        stop_method manual_ok ts sfail pid).1 = true) ∧
    (∀ (fs : Fs) (backup_path : String) (dry_run : Bool) (confirm : Bool)
      (stop_method : Option String) (manual_ok : Bool) (ts : String),
      safe_trace (full_restore_registry fs backup_path dry_run confirm stop_method
        manual_ok ts).1 = true) := by
  refine ⟨?_, ?_, ?_, ?_, ?_⟩
  · intro fs idx dry_run ts sfail pid
    simp only [cleanup_orphaned_entities]
    repeat' split
    all_goals rfl
  · intro fs dry_run ts sfail pid
    simp only [cleanup_deleted_items]
    rcases h1 : cleanup_deleted_one fs ENTITY_REGISTRY true dry_run ts sfail pid with ⟨t1, r1⟩
    have ht1 := cleanup_deleted_one_trace fs ENTITY_REGISTRY true dry_run ts sfail pid
    rw [h1] at ht1
    dsimp only at ht1
    rcases r1 with e | ⟨fs1, n1⟩
    · exact safe_of_shapes t1 ENTITY_REGISTRY ht1
    · rcases h2 : cleanup_deleted_one fs1 DEVICE_REGISTRY false dry_run ts sfail pid
        with ⟨t2, r2⟩
      have ht2 := cleanup_deleted_one_trace fs1 DEVICE_REGISTRY false dry_run ts sfail pid
      rw [h2] at ht2
      dsimp only at ht2
      dsimp only
      rw [h2]
      rcases r2 with e | ⟨fs2, n2⟩ <;>
        exact safe_trace_append t1 t2 (safe_of_shapes t1 ENTITY_REGISTRY ht1)
          (safe_of_shapes t2 DEVICE_REGISTRY ht2)
  · intro fs dry_run sel_input confirm ts sfail pid
    simp only [fix_entity_suffix]
    repeat' split
    all_goals rfl
  · intro fs backup_path dry_run sel_input confirm stop_method manual_ok ts sfail pid
    simp only [selective_restore_entities]
    repeat' split
    all_goals rfl
  · intro fs backup_path dry_run confirm stop_method manual_ok ts
    simp only [full_restore_registry]
    repeat' split
    all_goals rfl

lemma backup_name_inj (path ts1 ts2 : String)
    (h : backup_name path ts1 = backup_name path ts2) : ts1 = ts2 := by
  unfold backup_name at h
  have hd := congrArg String.data h
  simp only [String.data_append] at hd
  rw [List.append_assoc, List.append_assoc] at hd
  exact String.ext (List.append_cancel_left (List.append_cancel_left hd))

/-- C9: snapshotting the live entity registry with backup_file and later
running a full restore from that snapshot puts the document of the
snapshot moment back, field for field, whatever happened to the live
registry in between (the intermediate state `fsMid` is arbitrary as long
as it leaves the snapshot file alone and keeps the live registry file
present, and the restore-time timestamp differs from the snapshot one). -/
theorem C9_snapshot_then_full_restore_roundtrip :
    ∀ (fs0 : Fs) (d : Doc) (es : List Entity) (ts1 ts2 : String) (fs1 fsMid : Fs)
      (stop_method : Option String) (manual_ok : Bool),
      fs0 ENTITY_REGISTRY = some (.json d) →
      d.entities? = some es →
      backup_file fs0 ENTITY_REGISTRY ts1 = some fs1 →
      fsMid (backup_name ENTITY_REGISTRY ts1) = fs1 (backup_name ENTITY_REGISTRY ts1) →
      (fsMid ENTITY_REGISTRY).isSome →
      ts2 ≠ ts1 →
      (stop_method.isSome ∨ manual_ok = true) →
      ∃ fs3, (full_restore_registry fsMid (backup_name ENTITY_REGISTRY ts1) false true
          stop_method manual_ok ts2).2 = .ok (es.length, fs3) ∧
        fs3 ENTITY_REGISTRY = some (.json d) := by
  intro fs0 d es ts1 ts2 fs1 fsMid stop_method manual_ok h0 hes hb hmid hlive hts hstop
  have hb1 : fs1 (backup_name ENTITY_REGISTRY ts1) = some (.json d) := by
    unfold backup_file at hb
    rw [h0] at hb
    rw [← Option.some.inj hb]
    simp [fs_set]
  have hmb : fsMid (backup_name ENTITY_REGISTRY ts1) = some (.json d) := by
    rw [hmid, hb1]
  rcases hv : fsMid ENTITY_REGISTRY with _ | v
  · rw [hv] at hlive
    simp at hlive
  · have hbne : backup_name ENTITY_REGISTRY ts1 ≠ backup_name ENTITY_REGISTRY ts2 :=
      fun hcon => hts (backup_name_inj _ _ _ hcon).symm
    have hnostop : ¬(stop_method.isNone ∧ ¬(manual_ok = true)) := by
      rintro ⟨hn, hm⟩
      rcases hstop with hs | hs
      · cases stop_method <;> simp_all
      · exact hm hs
    have hread : fs_set fsMid (backup_name ENTITY_REGISTRY ts2) (some v)
        (backup_name ENTITY_REGISTRY ts1) = some (.json d) := by
      simp only [fs_set, if_neg hbne]
      exact hmb
    refine ⟨fs_set (fs_set fsMid (backup_name ENTITY_REGISTRY ts2) (some v))
        ENTITY_REGISTRY (some (.json d)), ?_, by simp [fs_set]⟩
    unfold full_restore_registry
    rw [show load_json fsMid (backup_name ENTITY_REGISTRY ts1) = .ok d from by
      unfold load_json
      rw [hmb]]
    dsimp only
    rw [hes]
    dsimp only
    rw [if_neg (by decide), if_neg (by decide), if_neg hnostop]
    rw [show backup_file fsMid ENTITY_REGISTRY ts2 =
        some (fs_set fsMid (backup_name ENTITY_REGISTRY ts2) (some v)) from by
      unfold backup_file
      rw [hv]]
    dsimp only
    rw [hread]

/-- Concrete instance of C9: snapshot a one-entity registry, wipe the
live registry, fully restore from the snapshot, and recover the original
document. -/
theorem C9_witness :
    ∃ fs3, (full_restore_registry
        (fs_set (fs_set roundtripFs0 (backup_name ENTITY_REGISTRY "20240101_000000")
            (some (.json roundtripDoc))) ENTITY_REGISTRY
          (some (.json { entities? := some [] })))
        (backup_name ENTITY_REGISTRY "20240101_000000") false true (some "ha") false
        "20240102_000000").2 = .ok (1, fs3) ∧
      fs3 ENTITY_REGISTRY = some (.json roundtripDoc) :=
  C9_snapshot_then_full_restore_roundtrip roundtripFs0 roundtripDoc
    [{ entity_id := "sensor.x" }] "20240101_000000" "20240102_000000"
    (fs_set roundtripFs0 (backup_name ENTITY_REGISTRY "20240101_000000")
      (some (.json roundtripDoc)))
    (fs_set (fs_set roundtripFs0 (backup_name ENTITY_REGISTRY "20240101_000000")
        (some (.json roundtripDoc))) ENTITY_REGISTRY
      (some (.json { entities? := some [] })))
    (some "ha") false rfl rfl rfl rfl rfl (by decide) (Or.inl rfl)

lemma parse_selection_bounds (s : String) (n i : Nat) (h : i ∈ parse_selection s n) :
    1 ≤ i ∧ i ≤ n := by
  unfold parse_selection parse_selection_core at h
  split at h
  · simp at h
  · split at h
    · exact Finset.mem_Icc.mp h
    · exact mem_finalize_indices n _ i h

lemma deleted_mem_id_not_current (b c : Doc) (e : Entity)
    (h : e ∈ (compare_registries b c).deleted) :
    e.entity_id ∉ (c.entities?.getD []).map (fun x => x.entity_id) := by
  have h2 : e ∈ ((dedup_first ((b.entities?.getD []).map (fun x => x.entity_id))).filter
      (fun i => decide (i ∉ dedup_first
        ((c.entities?.getD []).map (fun x => x.entity_id))))).filterMap
      (lookup_last (b.entities?.getD [])) := h
  rw [List.mem_filterMap] at h2
  obtain ⟨i, hi, hlk⟩ := h2
  obtain ⟨-, hid⟩ := lookup_last_mem hlk
  rw [List.mem_filter] at hi
  have hni := of_decide_eq_true hi.2
  rw [hid]
  intro hcon
  exact hni ((mem_dedup_first _ _).mpr hcon)

lemma getD_mem_of_lt (l : List Entity) (n : Nat) (h : n < l.length) :
    l.getD n default ∈ l := by
  rw [List.getD_eq_getElem?_getD, List.getElem?_eq_getElem h]
  exact List.getElem_mem h

/-- C10: in a selective restore run that reaches the merge, the
skip-on-conflict branch never fires (every selected entity comes from the
deleted bucket of a diff computed against the very same loaded live
document) and the returned count equals the number of selected indices. -/
theorem C10_selective_restore_skip_unreachable :
    ∀ (fs : Fs) (backup_path sel : String) (stop_method : Option String) (manual_ok : Bool)
      (ts : String) (pid : Nat) (backup_data current_data : Doc) (ces : List Entity),
      load_json fs backup_path = .ok backup_data →
      load_json fs ENTITY_REGISTRY = .ok current_data →
      current_data.entities? = some ces →
      (compare_registries backup_data current_data).deleted ≠ [] →
      parse_selection sel (compare_registries backup_data current_data).deleted.length ≠ ∅ →
      (stop_method.isSome ∨ manual_ok = true) →
      ∃ fs2, (selective_restore_entities fs backup_path false (some sel) true stop_method
          manual_ok ts none pid).2 =
        .ok ((parse_selection sel
          (compare_registries backup_data current_data).deleted.length).card, 0, fs2) := by
  intro fs backup_path sel stop_method manual_ok ts pid backup_data current_data ces
    hbk hcur hces hdel hsel hstop
  have hfsE : fs ENTITY_REGISTRY = some (.json current_data) := by
    unfold load_json at hcur
    rcases h : fs ENTITY_REGISTRY with _ | v
    · rw [h] at hcur
      exact absurd hcur (by simp)
    · rcases v with d | _
      · rw [h] at hcur
        dsimp only at hcur
        rw [Except.ok.inj hcur]
      · rw [h] at hcur
        exact absurd hcur (by simp)
  have hnostop : ¬(stop_method.isNone ∧ ¬(manual_ok = true)) := by
    rintro ⟨hn, hm⟩
    rcases hstop with hs | hs
    · cases stop_method <;> simp_all
    · exact hm hs
  -- the selected entities all come from the deleted bucket
  have hsel_not_current : ∀ i ∈ (parse_selection sel
      (compare_registries backup_data current_data).deleted.length).sort (· ≤ ·),
      ((compare_registries backup_data current_data).deleted.getD (i - 1)
        default).entity_id ∉ ces.map (fun x => x.entity_id) := by
    intro i hi
    have hbd := parse_selection_bounds sel _ i (Finset.mem_sort (· ≤ ·) |>.mp hi)
    have hlt : i - 1 < (compare_registries backup_data current_data).deleted.length := by
      omega
    have hmem := getD_mem_of_lt _ _ hlt
    have := deleted_mem_id_not_current backup_data current_data _ hmem
    rw [hces] at this
    exact this
  unfold selective_restore_entities
  rw [hbk, hcur]
  dsimp only
  rw [if_neg (fun hc : (compare_registries backup_data current_data).deleted.isEmpty = true
    => hdel (List.isEmpty_iff.mp hc))]
  rw [if_neg hsel, if_neg (by decide)]
  rw [if_neg (by decide), if_neg hnostop]
  rw [show backup_file fs ENTITY_REGISTRY ts = some (fs_set fs
      (backup_name ENTITY_REGISTRY ts) (some (.json current_data))) from by
    unfold backup_file
    rw [hfsE]]
  dsimp only
  rw [hces]
  dsimp only
  rw [if_pos (show (save_json _ ENTITY_REGISTRY _ none pid).ok = true from rfl)]
  have hto_add : ((parse_selection sel
        (compare_registries backup_data current_data).deleted.length).sort (· ≤ ·) |>.map
        (fun i => (compare_registries backup_data current_data).deleted.getD (i - 1)
          default)).filter
      (fun e => decide (e.entity_id ∉ ces.map (fun x => x.entity_id))) =
      ((parse_selection sel
        (compare_registries backup_data current_data).deleted.length).sort (· ≤ ·) |>.map
        (fun i => (compare_registries backup_data current_data).deleted.getD (i - 1)
          default)) := by
    rw [List.filter_eq_self]
    intro e he
    obtain ⟨i, hi, rfl⟩ := List.mem_map.mp he
    exact decide_eq_true (hsel_not_current i hi)
  have hskip : ((parse_selection sel
        (compare_registries backup_data current_data).deleted.length).sort (· ≤ ·) |>.map
        (fun i => (compare_registries backup_data current_data).deleted.getD (i - 1)
          default)).filter
      (fun e => decide (e.entity_id ∈ ces.map (fun x => x.entity_id))) = [] := by
    rw [List.filter_eq_nil_iff]
    intro e he
    obtain ⟨i, hi, rfl⟩ := List.mem_map.mp he
    simp only [decide_eq_true_eq]
    exact hsel_not_current i hi
  rw [hto_add, hskip]
  rw [List.length_map, Finset.length_sort]
  exact ⟨_, rfl⟩

/-- Concrete instance of C10: restoring the single deleted entity from a
snapshot restores exactly one entity and skips none. -/
theorem C10_witness :
    ∃ fs2, (selective_restore_entities restoreFs
        "core.entity_registry.backup.20240101_000000" false (some "1") true (some "ha")
        false "20240102_000000" none 42).2 = .ok (1, 0, fs2) :=
  C10_selective_restore_skip_unreachable restoreFs
    "core.entity_registry.backup.20240101_000000" "1" (some "ha") false "20240102_000000"
    42 restoreBackupDoc restoreCurrentDoc [{ entity_id := "sensor.a" }]
    rfl rfl rfl (by decide) (by decide) (Or.inl rfl)

/-- C8 fails as stated: the regex alternative `at least two digits`
matches runs whose numeric value is below 2, such as `_01`.  The entity
`sensor.power_01` carries no trailing suffix of value 2 or more, yet the
detector flags it (its base `sensor.power` being absent). -/
theorem C8_counterexample :
    has_suffix_value_ge2 "sensor.power_01" = false ∧
    ("sensor.power_01", "sensor.power", "sensor") ∈
      find_suffix_entities [{ entity_id := "sensor.power_01", platform := some "sensor" }] := by
  exact ⟨by decide, by decide⟩

/-- C8 amended: `find_suffix_entities` returns the triple
`(old id, base id, platform)` for an entity exactly when its id ends in
an underscore followed by a digit run that is a single digit 2-9 or any
run of two or more digits (so `_0` and `_1` are excluded, but multi-digit
runs of value below 2 such as `_01` are included), and the base id with
the suffix stripped is absent from the registry entity id set.  The
second and third conjuncts are the scenario from the specification:
`sensor.power_2` is flagged exactly when `sensor.power` is absent. -/
theorem C8_suffix_detection_iff :
    (∀ (entities : List Entity) (t : String × String × String),
      t ∈ find_suffix_entities entities ↔
      ∃ e ∈ entities, ∃ pre ds,
        e.entity_id.toList = pre ++ '_' :: ds ∧ (∀ c ∈ ds, c.isDigit = true) ∧
        (2 ≤ ds.length ∨ single_high_digit ds = true) ∧
        String.mk pre ∉ entities.map (fun x => x.entity_id) ∧
        t = (e.entity_id, String.mk pre, e.platform.getD "")) ∧
    find_suffix_entities [{ entity_id := "sensor.power_2", platform := some "sensor" }] =
      [("sensor.power_2", "sensor.power", "sensor")] ∧
    find_suffix_entities
      [{ entity_id := "sensor.power_2", platform := some "sensor" },
       { entity_id := "sensor.power", platform := some "sensor" }] = [] := by
  refine ⟨fun entities t => ?_, by decide, by decide⟩
  unfold find_suffix_entities
  rw [List.mem_filterMap]
  constructor
  · rintro ⟨e, he, hf⟩
    obtain ⟨base, run, hsp, hnm, ht⟩ := (suffix_candidate_eq_some _ e t).mp hf
    obtain ⟨pre, ds, hdec, hdig, hcond, hb, hr⟩ := (suffix_split_eq_some _ _ _).mp hsp
    refine ⟨e, he, pre, ds, hdec, hdig, hcond, ?_, ?_⟩
    · rw [← hb]; simpa using hnm
    · rw [ht, hb]
  · rintro ⟨e, he, pre, ds, hdec, hdig, hcond, hnm, ht⟩
    refine ⟨e, he, (suffix_candidate_eq_some _ e t).mpr ?_⟩
    refine ⟨String.mk pre, String.mk ds,
      (suffix_split_eq_some _ _ _).mpr ⟨pre, ds, hdec, hdig, hcond, rfl, rfl⟩, ?_, ht⟩
    simpa using hnm
